import Mathlib

/-!
Verification development for the parser-compare repository: a shallow
embedding of the benchmark Method Runner (`benchmarkMethod`, `runBenchmark`,
`startMethod`, `getFileStatus`), the Comparison Engine excerpt budgeting
(`getExcerpt`), the parallel search route handler, and the Run History Store
(`history.ts`), together with theorems about the claims of the specification.

Remote calls (the Botpress files API) are modelled as environment data: each
fallible remote operation is an `Except String` value (`.error msg` models a
thrown exception with that message), and the status poll is a function from
the attempt counter to the fetched file.  Machine integers are `Nat`
(the quantities involved — lengths, counts, attempt counters — are
non-negative and far from any overflow boundary).
-/

namespace ParserCompare

/-- Remote statuses reported by the files API
(`upload_pending`/`indexing_pending` are the pending set). -/
inductive RemoteStatus
  | upload_pending
  | indexing_pending
  | indexing_completed
  | indexing_failed
  | upload_failed
deriving DecidableEq, Repr

/-- `MethodJobStatus` from `server/types.ts`: the remote statuses plus the
client-side `timeout` override. -/
inductive MethodJobStatus
  | upload_pending
  | indexing_pending
  | indexing_completed
  | indexing_failed
  | upload_failed
  | timeout
deriving DecidableEq, Repr

/-- Injection of a remote status into `MethodJobStatus`. -/
def RemoteStatus.toJob : RemoteStatus → MethodJobStatus
  | .upload_pending => .upload_pending
  | .indexing_pending => .indexing_pending
  | .indexing_completed => .indexing_completed
  | .indexing_failed => .indexing_failed
  | .upload_failed => .upload_failed

/-- The pending set `{upload_pending, indexing_pending}` used by the poll
loop condition in `benchmarkMethod`. -/
def isPendingStatus : RemoteStatus → Bool
  | .upload_pending => true
  | .indexing_pending => true
  | _ => false

/-- Terminal statuses as enumerated by the `allComplete` check of
`updateMethodInHistory`. -/
def isTerminalStatus : MethodJobStatus → Bool
  | .indexing_completed => true
  | .indexing_failed => true
  | .upload_failed => true
  | .timeout => true
  | _ => false

/-- `PassageMeta` from `server/types.ts` (optional type/subtype/pageNumber). -/
structure PassageMeta where
  type : Option String
  subtype : Option String
  pageNumber : Option Nat
deriving DecidableEq, Repr

/-- A passage as stored after `getAllPassages` normalisation. -/
structure Passage where
  id : String
  content : String
  meta : PassageMeta
deriving DecidableEq, Repr

/-- `metaBreakdown` record; `Record<string, number>` maps are modelled as
association lists. -/
structure MetaBreakdown where
  byType : List (String × Nat)
  bySubtype : List (String × Nat)
  pageCount : Nat
deriving DecidableEq, Repr

def emptyBreakdown : MetaBreakdown := ⟨[], [], 0⟩

/-- One of the three fixed parsing configurations from `METHODS`. -/
inductive ParsingConfig
  | basicConfig
  | visionTranscribePages
  | parsingModeAgent
deriving DecidableEq, Repr

/-- `MethodConfig` from `server/types.ts`. -/
structure MethodConfig where
  name : String
  label : String
  config : ParsingConfig
deriving DecidableEq, Repr

/-- The fixed `METHODS` array from `server/benchmark.ts`. -/
def METHODS : List MethodConfig :=
  [⟨"basic", "Basic", .basicConfig⟩,
   ⟨"vision", "Vision", .visionTranscribePages⟩,
   ⟨"landing-ai", "Landing AI", .parsingModeAgent⟩]

/-- `MethodResult` from `server/types.ts`. -/
structure MethodResult where
  method : String
  label : String
  fileId : String
  status : MethodJobStatus
  failedReason : Option String
  processingTimeMs : Nat
  passageCount : Nat
  contentCharsTotal : Nat
  metaBreakdown : MetaBreakdown
  sampleText : String
  costOrUsageRaw : Option String
deriving DecidableEq, Repr

def MAX_POLL_ATTEMPTS : Nat := 150

/-- The remote file object as returned by `upsertFile`/`getFile`
(the fields `benchmarkMethod` reads). -/
structure RemoteFile where
  id : String
  status : RemoteStatus
  failedStatusReason : Option String
  usage : Option String
deriving DecidableEq, Repr

/-- Environment of one `benchmarkMethod` run: each remote interaction as
data.  `.error msg` models that call throwing an exception with message
`msg`; `getFileAt k` is the result of the `getFile` call made when the
attempt counter is `k`. -/
structure BenchmarkEnv where
  upsert : Except String (RemoteFile × Option String)
  uploadResult : Except String Unit
  getFileAt : Nat → Except String RemoteFile
  passagesResult : Except String (List Passage)
  elapsedMs : Nat

/-- The poll loop of `benchmarkMethod`:
`while ((status is pending) && attempts < MAX_POLL_ATTEMPTS) { fetch; attempts++ }`.
Structural recursion on the remaining fuel, where `fuel + attempts =
MAX_POLL_ATTEMPTS` at every call from `pollFile`, so `fuel > 0` is exactly the
source condition `attempts < MAX_POLL_ATTEMPTS`. -/
def pollAux (getFileAt : Nat → Except String RemoteFile) :
    Nat → Nat → RemoteFile → Except String (RemoteFile × Nat)
  | 0, attempts, cur => .ok (cur, attempts)
  | fuel + 1, attempts, cur =>
    if isPendingStatus cur.status then
      match getFileAt attempts with
      | .error e => .error e
      | .ok f => pollAux getFileAt fuel (attempts + 1) f
    else
      .ok (cur, attempts)

def pollFile (getFileAt : Nat → Except String RemoteFile) (initial : RemoteFile) :
    Except String (RemoteFile × Nat) :=
  pollAux getFileAt MAX_POLL_ATTEMPTS 0 initial

/-- `byType`/`bySubtype` counting: insert-or-increment on an association
list (`map[k] = (map[k] || 0) + 1`). -/
def incrCount : List (String × Nat) → String → List (String × Nat)
  | [], k => [(k, 1)]
  | (k', v) :: rest, k =>
    if k' = k then (k', v + 1) :: rest else (k', v) :: incrCount rest k

def computeByType (ps : List Passage) : List (String × Nat) :=
  ps.foldl (fun acc p => match p.meta.type with
    | some t => incrCount acc t
    | none => acc) []

def computeBySubtype (ps : List Passage) : List (String × Nat) :=
  ps.foldl (fun acc p => match p.meta.subtype with
    | some t => incrCount acc t
    | none => acc) []

/-- `pageCount`: number of distinct `meta.pageNumber` values
(the `Set<number>` in the source). -/
def distinctPageCount (ps : List Passage) : Nat :=
  ((ps.filterMap (fun p => p.meta.pageNumber)).dedup).length

/-- Sum of passage content lengths (`contentCharsTotal`). -/
def totalContentChars (ps : List Passage) : Nat :=
  ps.foldl (fun sum p => sum + p.content.length) 0

/-- JS `Array.join(sep)`. -/
def joinSep (sep : String) : List String → String
  | [] => ""
  | [c] => c
  | c :: c2 :: rest => c ++ sep ++ joinSep sep (c2 :: rest)

/-- The `timeout` result record built by `benchmarkMethod`. -/
def timeoutResult (method : MethodConfig) (fileId : String) (t : Nat) : MethodResult :=
  { method := method.name, label := method.label, fileId := fileId,
    status := .timeout,
    failedReason := some "Indexing timed out after 5 minutes",
    processingTimeMs := t, passageCount := 0, contentCharsTotal := 0,
    metaBreakdown := emptyBreakdown, sampleText := "", costOrUsageRaw := none }

/-- The remote-failure result record built by `benchmarkMethod`. -/
def remoteFailResult (method : MethodConfig) (fileId : String) (finalFile : RemoteFile)
    (t : Nat) : MethodResult :=
  { method := method.name, label := method.label, fileId := fileId,
    status := finalFile.status.toJob,
    failedReason := some (finalFile.failedStatusReason.getD "Unknown error"),
    processingTimeMs := t, passageCount := 0, contentCharsTotal := 0,
    metaBreakdown := emptyBreakdown, sampleText := "", costOrUsageRaw := none }

/-- The completed result record built by `benchmarkMethod`: metrics computed
from the fetched passages. -/
def completedResult (method : MethodConfig) (fileId : String) (finalFile : RemoteFile)
    (passages : List Passage) (t : Nat) : MethodResult :=
  { method := method.name, label := method.label, fileId := fileId,
    status := .indexing_completed, failedReason := none,
    processingTimeMs := t,
    passageCount := passages.length,
    contentCharsTotal := totalContentChars passages,
    metaBreakdown := ⟨computeByType passages, computeBySubtype passages,
                      distinctPageCount passages⟩,
    sampleText := (joinSep "\n\n---\n\n" ((passages.take 3).map (fun p => p.content))).take 2000,
    costOrUsageRaw := finalFile.usage }

/-- The result record built by the `catch` block of `benchmarkMethod`
(note `fileId` is hardcoded to the empty string there). -/
def caughtResult (method : MethodConfig) (msg : String) (t : Nat) : MethodResult :=
  { method := method.name, label := method.label, fileId := "",
    status := .indexing_failed, failedReason := some msg,
    processingTimeMs := t, passageCount := 0, contentCharsTotal := 0,
    metaBreakdown := emptyBreakdown, sampleText := "", costOrUsageRaw := none }

/-- The `try` body of `benchmarkMethod`: enqueue, check the upload URL,
upload, poll until terminal or cap, then build the result record.
`.error msg` is an exception escaping to the `catch`. -/
def benchmarkFlow (env : BenchmarkEnv) (method : MethodConfig) : Except String MethodResult :=
  match env.upsert with
  | .error e => .error e
  | .ok (file, uploadUrl) =>
    match uploadUrl with
    | none => .error "No uploadUrl returned from upsertFile"
    | some _ =>
      match env.uploadResult with
      | .error e => .error e
      | .ok _ =>
        match pollFile env.getFileAt file with
        | .error e => .error e
        | .ok (finalFile, attempts) =>
          if MAX_POLL_ATTEMPTS ≤ attempts then
            .ok (timeoutResult method file.id env.elapsedMs)
          else if finalFile.status = .indexing_failed ∨ finalFile.status = .upload_failed then
            .ok (remoteFailResult method file.id finalFile env.elapsedMs)
          else
            match env.passagesResult with
            | .error e => .error e
            | .ok passages => .ok (completedResult method file.id finalFile passages env.elapsedMs)

/-- `benchmarkMethod`: the `try` body with its `catch` block, which converts
any thrown error into an `indexing_failed` result carrying the message. -/
def benchmarkMethod (env : BenchmarkEnv) (method : MethodConfig) : MethodResult :=
  match benchmarkFlow env method with
  | .ok r => r
  | .error msg => caughtResult method msg env.elapsedMs

/-- `BenchmarkRunResult` from `server/types.ts`. -/
structure OriginalFile where
  name : String
  size : Nat
  contentType : String
deriving DecidableEq, Repr

structure BenchmarkRunResult where
  runId : String
  startedAt : String
  completedAt : String
  originalFile : OriginalFile
  methods : List MethodResult
deriving DecidableEq, Repr

/-- `runBenchmark`: every configured method's `benchmarkMethod`, sequentially,
aggregated into one `BenchmarkRunResult`.  `envOf` supplies each method's
remote interactions; the identifiers and timestamps are environment data. -/
def runBenchmark (envOf : String → BenchmarkEnv)
    (runId startedAt completedAt fileName : String) (fileSize : Nat)
    (contentType : String) : BenchmarkRunResult :=
  { runId := runId, startedAt := startedAt, completedAt := completedAt,
    originalFile := ⟨fileName, fileSize, contentType⟩,
    methods := METHODS.map (fun m => benchmarkMethod (envOf m.name) m) }

/-- `FileStatusResponse` from `server/types.ts`: metric fields are optional
and present only on terminal completion. -/
structure FileStatusResponse where
  fileId : String
  status : MethodJobStatus
  failedReason : Option String
  processingTimeMs : Option Nat
  passageCount : Option Nat
  contentCharsTotal : Option Nat
  metaBreakdown : Option MetaBreakdown
deriving DecidableEq, Repr

/-- Environment of one successful `getFileStatus` call: the fetched file,
the passages `getAllPassages` would return, and `Date.now() - startedAt`
when a `startedAt` query parameter was supplied. -/
structure StatusEnv where
  file : RemoteFile
  passages : List Passage
  startedElapsed : Option Nat

/-- `getFileStatus` from `server/benchmark.ts` (success path): reports the
remote status, attaches `failedReason` on a failure status, and fetches
passages and computes metrics only when the status is `indexing_completed`. -/
def getFileStatus (env : StatusEnv) (fileId : String) : FileStatusResponse :=
  let status := env.file.status.toJob
  let failedReason :=
    if status = .indexing_failed ∨ status = .upload_failed then
      some (env.file.failedStatusReason.getD "Unknown error")
    else none
  if status = .indexing_completed then
    { fileId := fileId, status := status, failedReason := failedReason,
      processingTimeMs := env.startedElapsed,
      passageCount := some env.passages.length,
      contentCharsTotal := some (totalContentChars env.passages),
      metaBreakdown := some ⟨computeByType env.passages, computeBySubtype env.passages,
                             distinctPageCount env.passages⟩ }
  else
    { fileId := fileId, status := status, failedReason := failedReason,
      processingTimeMs := none, passageCount := none,
      contentCharsTotal := none, metaBreakdown := none }

/-! ## Comparison Engine excerpt budgeting (`server/aiComparison.ts`) -/

def EXCERPT_CHAR_LIMIT : Nat := 4000

/-- The accumulation loop of `getExcerpt`:
`for (const p of passages) { if (excerpt.length + p.content.length > LIMIT) break; excerpt += p.content + sep }`. -/
def excerptLoop : List String → String → String
  | [], acc => acc
  | c :: rest, acc =>
    if EXCERPT_CHAR_LIMIT < acc.length + c.length then acc
    else excerptLoop rest (acc ++ c ++ "\n\n")

/-- `getExcerpt` (success path): the remote `getFilePassages(fileId, 50)`
call returns at most its `limit` of 50 passages, modelled by `take 50` of
the file's passage list; the loop then concatenates whole passages within
the 4000-character budget, and the result is trimmed with a placeholder for
the empty excerpt. -/
def getExcerpt (filePassages : List Passage) : String :=
  let e := excerptLoop ((filePassages.take 50).map (fun p => p.content)) ""
  let t := e.trim
  if t = "" then "[No content extracted]" else t

/-- Left fold matching `excerptLoop`'s accumulation (used to state which
prefix of the passages the excerpt consists of). -/
def appendAll (acc : String) (cs : List String) : String :=
  cs.foldl (fun a c => a ++ c ++ "\n\n") acc

/-! ## Parallel search route handler (`/api/botpress/search` in `App.tsx`) -/

/-- `SearchPassage` from `server/types.ts`; the score is an opaque number
supplied by the remote service (never computed on locally). -/
structure SearchPassage where
  content : String
  score : Int
  fileId : String
deriving DecidableEq, Repr

/-- Outcome of one `searchFilesByMethod` call: success, or a thrown
`Error` (with its message), or a thrown non-`Error` value. -/
inductive SearchOutcome
  | ok (passages : List SearchPassage)
  | errError (message : String)
  | errOther
deriving DecidableEq, Repr

/-- One entry of the aggregate search response. -/
structure SearchResultEntry where
  method : String
  passages : List SearchPassage
  error : Option String
deriving DecidableEq, Repr

/-- The fixed method list of the search route. -/
def searchMethods : List String := ["basic", "vision", "landing-ai"]

/-- The per-method closure of the search handler: the call is guarded by its
own try/catch, so a failure is converted into an entry with empty passages
and an `error` field (`error.message`, or `'Search failed'` for a non-Error
throw). -/
def searchEntryFor (oracle : String → SearchOutcome) (m : String) : SearchResultEntry :=
  match oracle m with
  | .ok ps => ⟨m, ps, none⟩
  | .errError msg => ⟨m, [], some msg⟩
  | .errOther => ⟨m, [], some "Search failed"⟩

/-- The `results` array of the search route: one entry per configured
method, produced in parallel and each caught independently. -/
def searchHandler (oracle : String → SearchOutcome) : List SearchResultEntry :=
  searchMethods.map (searchEntryFor oracle)

/-! ## Run History Store (`lib/history.ts`)

The store state is the parsed JSON array under the storage key.  Method
records as persisted can carry absent fields (pending entries smuggle a
`startedAt`, and the poll merge can write `undefined` into metric fields),
so the stored method shape uses `Option` fields. -/

def MAX_HISTORY_ITEMS : Nat := 25

/-- A method record as stored in a history entry. -/
structure HistMethod where
  method : String
  label : String
  fileId : String
  status : MethodJobStatus
  failedReason : Option String
  processingTimeMs : Option Nat
  passageCount : Option Nat
  contentCharsTotal : Option Nat
  metaBreakdown : Option MetaBreakdown
  sampleText : Option String
  startedAt : Option String
deriving DecidableEq, Repr

structure RankingEntry where
  method : String
  rank : Nat
  score : Option Nat
deriving DecidableEq, Repr

structure AiComparisonResult where
  runId : String
  generatedAt : String
  ranking : List RankingEntry
  summary : String
  perMethodNotes : List (String × String)
  recommendedMethod : String
deriving DecidableEq, Repr

/-- A persisted history entry (`BenchmarkRunResult` plus the optional
AI comparison); `completedAt = ""` is the unset sentinel written by
`createPendingEntry`. -/
structure HistoryEntry where
  runId : String
  startedAt : String
  completedAt : String
  originalFile : OriginalFile
  methods : List HistMethod
  aiComparison : Option AiComparisonResult
deriving DecidableEq, Repr

def dummyHistMethod : HistMethod :=
  ⟨"", "", "", .upload_pending, none, none, none, none, none, none, none⟩

def dummyEntry : HistoryEntry :=
  ⟨"", "", "", ⟨"", 0, ""⟩, [], none⟩

/-- Conversion of a full `MethodResult` to the stored shape (all fields
present, no per-method `startedAt`). -/
def methodResultToHist (r : MethodResult) : HistMethod :=
  { method := r.method, label := r.label, fileId := r.fileId, status := r.status,
    failedReason := r.failedReason, processingTimeMs := some r.processingTimeMs,
    passageCount := some r.passageCount, contentCharsTotal := some r.contentCharsTotal,
    metaBreakdown := some r.metaBreakdown, sampleText := some r.sampleText,
    startedAt := none }

/-- The spread `{...result}` of `addToHistory`: a `BenchmarkRunResult`
becomes a history entry without an AI comparison. -/
def toHistoryEntry (r : BenchmarkRunResult) : HistoryEntry :=
  { runId := r.runId, startedAt := r.startedAt, completedAt := r.completedAt,
    originalFile := r.originalFile,
    methods := r.methods.map methodResultToHist,
    aiComparison := none }

/-- `addToHistory`: prepend the entry, drop any previous entry with the same
`runId`, cap at `MAX_HISTORY_ITEMS`. -/
def addToHistory (history : List HistoryEntry) (result : BenchmarkRunResult) :
    List HistoryEntry :=
  let entry := toHistoryEntry result
  let filtered := history.filter (fun h => h.runId ≠ entry.runId)
  (entry :: filtered).take MAX_HISTORY_ITEMS

/-- `PendingMethod`/`PendingHistoryEntry` from `lib/history.ts`. -/
structure PendingMethod where
  method : String
  label : String
  fileId : String
  status : MethodJobStatus
  startedAt : String
deriving DecidableEq, Repr

structure PendingHistoryEntry where
  runId : String
  startedAt : String
  originalFile : OriginalFile
  methods : List PendingMethod
deriving DecidableEq, Repr

/-- The entry `createPendingEntry` builds: zeroed metrics, empty
`completedAt`, and the per-method `startedAt` extra field. -/
def pendingToEntry (p : PendingHistoryEntry) : HistoryEntry :=
  { runId := p.runId, startedAt := p.startedAt, completedAt := "",
    originalFile := p.originalFile,
    methods := p.methods.map (fun m =>
      { method := m.method, label := m.label, fileId := m.fileId, status := m.status,
        failedReason := none, processingTimeMs := some 0, passageCount := some 0,
        contentCharsTotal := some 0, metaBreakdown := some emptyBreakdown,
        sampleText := some "", startedAt := some m.startedAt }),
    aiComparison := none }

/-- `createPendingEntry`: same prepend/dedup/cap as `addToHistory`. -/
def createPendingEntry (history : List HistoryEntry) (p : PendingHistoryEntry) :
    List HistoryEntry :=
  let historyEntry := pendingToEntry p
  let filtered := history.filter (fun h => h.runId ≠ p.runId)
  (historyEntry :: filtered).take MAX_HISTORY_ITEMS

/-- JS `Array.findIndex` (first index satisfying the predicate). -/
def findIndexAux {α : Type} (p : α → Bool) : List α → Nat → Option Nat
  | [], _ => none
  | x :: xs, i => if p x then some i else findIndexAux p xs (i + 1)

def findIndex {α : Type} (p : α → Bool) (l : List α) : Option Nat :=
  findIndexAux p l 0

/-- The partial update passed to `updateMethodInHistory`
(`Partial<MethodResult> & { status }`): the outer `Option` is key presence
in the object literal, the inner value may itself be `undefined`
(spreading a present key overwrites the old value, even with `undefined`). -/
structure MethodUpdate where
  status : MethodJobStatus
  failedReason : Option (Option String)
  processingTimeMs : Option (Option Nat)
  passageCount : Option (Option Nat)
  contentCharsTotal : Option (Option Nat)
  metaBreakdown : Option (Option MetaBreakdown)
deriving DecidableEq, Repr

def mergeField {α : Type} : Option (Option α) → Option α → Option α
  | none, old => old
  | some v, _ => v

/-- The spread `{...oldMethod, ...update}` of `updateMethodInHistory`. -/
def applyMethodUpdate (u : MethodUpdate) (m : HistMethod) : HistMethod :=
  { m with
    status := u.status,
    failedReason := mergeField u.failedReason m.failedReason,
    processingTimeMs := mergeField u.processingTimeMs m.processingTimeMs,
    passageCount := mergeField u.passageCount m.passageCount,
    contentCharsTotal := mergeField u.contentCharsTotal m.contentCharsTotal,
    metaBreakdown := mergeField u.metaBreakdown m.metaBreakdown }

/-- The body of `updateMethodInHistory` once the run entry is found: merge
the update into the named method (if present) and set `completedAt` the
first time every method is terminal (`!completedAt` guards the write). -/
def updateEntryMethod (now : String) (methodName : String) (u : MethodUpdate)
    (e : HistoryEntry) : HistoryEntry :=
  match findIndex (fun m => m.method = methodName) e.methods with
  | none => e
  | some j =>
    let methods2 := e.methods.set j (applyMethodUpdate u (e.methods.getD j dummyHistMethod))
    let allComplete := methods2.all (fun m => isTerminalStatus m.status)
    { e with methods := methods2,
             completedAt := if allComplete ∧ e.completedAt = "" then now else e.completedAt }

/-- `updateMethodInHistory` (the store's `mergeMethodUpdate`): locate the
run by `runId`; when absent, or when the method is absent in it, nothing is
written. -/
def updateMethodInHistory (now : String) (history : List HistoryEntry)
    (runId methodName : String) (u : MethodUpdate) : List HistoryEntry :=
  match findIndex (fun h => h.runId = runId) history with
  | none => history
  | some i => history.set i (updateEntryMethod now methodName u (history.getD i dummyEntry))

/-- `getHistory`: total read of the backing store.  `stored` is the raw
value under the storage key (`none` = absent); `parseHistory` models
`JSON.parse` (`none` = the parse throws).  `!stored` is true exactly for
the absent key and the empty string. -/
def getHistory (stored : Option String)
    (parseHistory : String → Option (List HistoryEntry)) : List HistoryEntry :=
  match stored with
  | none => []
  | some s =>
    if s = "" then []
    else
      match parseHistory s with
      | none => []
      | some l => l

/-- `getRunById`: find in the parsed history (`|| null` becomes `none`). -/
def getRunById (stored : Option String)
    (parseHistory : String → Option (List HistoryEntry)) (runId : String) :
    Option HistoryEntry :=
  (getHistory stored parseHistory).find? (fun h => h.runId = runId)

structure MethodSummary where
  method : String
  label : String
  status : MethodJobStatus
deriving DecidableEq, Repr

structure HistorySummary where
  runId : String
  fileName : String
  fileSize : Nat
  startedAt : String
  methods : List MethodSummary
  hasAiComparison : Bool
deriving DecidableEq, Repr

/-- `getHistorySummaries`: projection of each entry for list rendering. -/
def getHistorySummaries (stored : Option String)
    (parseHistory : String → Option (List HistoryEntry)) : List HistorySummary :=
  (getHistory stored parseHistory).map (fun h =>
    { runId := h.runId, fileName := h.originalFile.name, fileSize := h.originalFile.size,
      startedAt := h.startedAt,
      methods := h.methods.map (fun m => ⟨m.method, m.label, m.status⟩),
      hasAiComparison := h.aiComparison.isSome })

/-- The validation `importHistory` applies to each parsed entry:
`!entry.runId || !entry.originalFile || !Array.isArray(entry.methods)`.
In this typed model `originalFile` and `methods` are present by
construction, so only the truthiness of `runId` remains. -/
def validHistoryEntry (e : HistoryEntry) : Bool := e.runId ≠ ""

/-- `exportHistory` emits the pretty-printed JSON of the stored array;
since `JSON.parse ∘ JSON.stringify` is the identity on these plain records,
the payload is modelled by the entry list itself. -/
def exportHistory (history : List HistoryEntry) : List HistoryEntry := history

/-- `importHistory`: `parsed = none` models a JSON text that fails to parse
as an array; otherwise every entry is validated, new entries (by `runId`)
are merged ahead of the existing ones, and the cap is re-applied.  Returns
the success flag and the resulting store state (unchanged on failure). -/
def importHistory (parsed : Option (List HistoryEntry))
    (existing : List HistoryEntry) : Bool × List HistoryEntry :=
  match parsed with
  | none => (false, existing)
  | some entries =>
    if entries.all validHistoryEntry then
      let existingIds := existing.map (fun h => h.runId)
      let newEntries := entries.filter (fun h => ¬ existingIds.contains h.runId)
      (true, (newEntries ++ existing).take MAX_HISTORY_ITEMS)
    else
      (false, existing)

/-! ## Poll loop characterization -/

/-- The attempt counter returned by the poll loop never exceeds the starting
counter plus the available fuel. -/
theorem pollAux_le (g : Nat → Except String RemoteFile) :
    ∀ (fuel attempts : Nat) (cur f : RemoteFile) (n : Nat),
      pollAux g fuel attempts cur = .ok (f, n) → n ≤ attempts + fuel := by
  intro fuel
  induction fuel with
  | zero =>
    intro attempts cur f n h
    simp only [pollAux, Except.ok.injEq, Prod.mk.injEq] at h
    omega
  | succ m ih =>
    intro attempts cur f n h
    simp only [pollAux] at h
    by_cases hp : isPendingStatus cur.status
    · rw [if_pos hp] at h
      cases hg : g attempts with
      | error e => rw [hg] at h; exact absurd h (by simp)
      | ok fa =>
        rw [hg] at h
        have := ih (attempts + 1) fa f n h
        omega
    · rw [if_neg hp] at h
      simp only [Except.ok.injEq, Prod.mk.injEq] at h
      omega

/-- If the status is pending at every check before the fuel runs out and
every fetch succeeds, the loop consumes all its fuel and returns the last
fetched file with the capped attempt counter. -/
theorem pollAux_cap_of_pending (g : Nat → Except String RemoteFile) :
    ∀ (fuel attempts : Nat) (cur fLast : RemoteFile),
      0 < fuel →
      isPendingStatus cur.status = true →
      (∀ k, attempts ≤ k → k + 1 < attempts + fuel →
        ∃ fk, g k = .ok fk ∧ isPendingStatus fk.status = true) →
      g (attempts + fuel - 1) = .ok fLast →
      pollAux g fuel attempts cur = .ok (fLast, attempts + fuel) := by
  intro fuel
  induction fuel with
  | zero => intro _ _ _ h0; omega
  | succ m ih =>
    intro attempts cur fLast _ hp hmid hlast
    simp only [pollAux]
    rw [if_pos hp]
    cases m with
    | zero =>
      have h1 : attempts + 1 - 1 = attempts := by omega
      rw [h1] at hlast
      rw [hlast]
      simp only [pollAux]
    | succ m' =>
      obtain ⟨fa, hga, hpa⟩ := hmid attempts (Nat.le_refl _) (by omega)
      rw [hga]
      have hrec := ih (attempts + 1) fa fLast (by omega) hpa
        (fun k hk1 hk2 => hmid k (by omega) (by omega))
        (by
          have h2 : attempts + 1 + (m' + 1) - 1 = attempts + (m' + 1 + 1) - 1 := by omega
          rw [h2]; exact hlast)
      have h3 : attempts + 1 + (m' + 1) = attempts + (m' + 1 + 1) := by omega
      rw [h3] at hrec
      exact hrec

/-- Conversely, if the loop returned with the attempt counter equal to the
cap, the status was pending at every check and every fetch up to the last
one succeeded (the last fetched file being the returned one, its status
unconstrained). -/
theorem pollAux_pending_of_cap (g : Nat → Except String RemoteFile) :
    ∀ (fuel attempts : Nat) (cur f : RemoteFile),
      0 < fuel →
      pollAux g fuel attempts cur = .ok (f, attempts + fuel) →
      isPendingStatus cur.status = true ∧
      (∀ k, attempts ≤ k → k + 1 < attempts + fuel →
        ∃ fk, g k = .ok fk ∧ isPendingStatus fk.status = true) ∧
      g (attempts + fuel - 1) = .ok f := by
  intro fuel
  induction fuel with
  | zero => intro _ _ _ h0; omega
  | succ m ih =>
    intro attempts cur f _ h
    simp only [pollAux] at h
    by_cases hp : isPendingStatus cur.status
    · rw [if_pos hp] at h
      cases hg : g attempts with
      | error e => rw [hg] at h; exact absurd h (by simp)
      | ok fa =>
        rw [hg] at h
        cases m with
        | zero =>
          simp only [pollAux, Except.ok.injEq, Prod.mk.injEq] at h
          obtain ⟨rfl, -⟩ := h
          refine ⟨hp, ?_, ?_⟩
          · intro k hk1 hk2; omega
          · have h1 : attempts + 1 - 1 = attempts := by omega
            rw [h1]; exact hg
        | succ m' =>
          have h3 : attempts + (m' + 1 + 1) = attempts + 1 + (m' + 1) := by omega
          rw [h3] at h
          obtain ⟨hpa, hmid, hlast⟩ := ih (attempts + 1) fa f (by omega) h
          refine ⟨hp, ?_, ?_⟩
          · intro k hk1 hk2
            rcases Nat.eq_or_lt_of_le hk1 with rfl | hk3
            · exact ⟨fa, hg, hpa⟩
            · exact hmid k (by omega) (by omega)
          · have h4 : attempts + 1 + (m' + 1) - 1 = attempts + (m' + 1 + 1) - 1 := by omega
            rw [h4] at hlast; exact hlast
    · rw [if_neg hp] at h
      simp only [Except.ok.injEq, Prod.mk.injEq] at h
      omega

/-- `RemoteStatus.toJob` never produces the client-side `timeout` value. -/
theorem toJob_ne_timeout (s : RemoteStatus) : s.toJob ≠ .timeout := by
  cases s <;> simp [RemoteStatus.toJob]

/-- A thrown error inside the flow is converted by the catch block. -/
theorem benchmarkMethod_of_flow_error (env : BenchmarkEnv) (method : MethodConfig)
    (msg : String) (h : benchmarkFlow env method = .error msg) :
    benchmarkMethod env method = caughtResult method msg env.elapsedMs := by
  unfold benchmarkMethod; rw [h]

/-- A flow that completes returns its result unchanged. -/
theorem benchmarkMethod_of_flow_ok (env : BenchmarkEnv) (method : MethodConfig)
    (r : MethodResult) (h : benchmarkFlow env method = .ok r) :
    benchmarkMethod env method = r := by
  unfold benchmarkMethod; rw [h]

/-- Every `benchmarkFlow` run produces one of the four outcome shapes:
an escaped error, the timeout record, a remote-failure record, or a
completed record with metrics computed from the fetched passages. -/
theorem benchmarkFlow_shape (env : BenchmarkEnv) (method : MethodConfig) :
    (∃ msg, benchmarkFlow env method = .error msg) ∨
    (∃ fid, benchmarkFlow env method = .ok (timeoutResult method fid env.elapsedMs)) ∨
    (∃ fid ff, (ff.status = .indexing_failed ∨ ff.status = .upload_failed) ∧
      benchmarkFlow env method = .ok (remoteFailResult method fid ff env.elapsedMs)) ∨
    (∃ fid ff ps, env.passagesResult = .ok ps ∧
      benchmarkFlow env method = .ok (completedResult method fid ff ps env.elapsedMs)) := by
  unfold benchmarkFlow
  split
  · exact .inl ⟨_, rfl⟩
  · split
    · exact .inl ⟨_, rfl⟩
    · split
      · exact .inl ⟨_, rfl⟩
      · split
        · exact .inl ⟨_, rfl⟩
        · split
          · exact .inr (.inl ⟨_, rfl⟩)
          · split
            · next h2 => exact .inr (.inr (.inl ⟨_, _, h2, rfl⟩))
            · split
              · exact .inl ⟨_, rfl⟩
              · next ps hps => exact .inr (.inr (.inr ⟨_, _, ps, hps, rfl⟩))

/-- Every `benchmarkMethod` run produces one of the four result shapes. -/
theorem benchmarkMethod_shape (env : BenchmarkEnv) (method : MethodConfig) :
    (∃ msg, benchmarkMethod env method = caughtResult method msg env.elapsedMs) ∨
    (∃ fid, benchmarkMethod env method = timeoutResult method fid env.elapsedMs) ∨
    (∃ fid ff, (ff.status = .indexing_failed ∨ ff.status = .upload_failed) ∧
      benchmarkMethod env method = remoteFailResult method fid ff env.elapsedMs) ∨
    (∃ fid ff ps, env.passagesResult = .ok ps ∧
      benchmarkMethod env method = completedResult method fid ff ps env.elapsedMs) := by
  rcases benchmarkFlow_shape env method with ⟨msg, h⟩ | ⟨fid, h⟩ |
    ⟨fid, ff, h2, h⟩ | ⟨fid, ff, ps, hps, h⟩
  · exact .inl ⟨msg, benchmarkMethod_of_flow_error env method msg h⟩
  · exact .inr (.inl ⟨fid, benchmarkMethod_of_flow_ok env method _ h⟩)
  · exact .inr (.inr (.inl ⟨fid, ff, h2, benchmarkMethod_of_flow_ok env method _ h⟩))
  · exact .inr (.inr (.inr ⟨fid, ff, ps, hps, benchmarkMethod_of_flow_ok env method _ h⟩))

/-- The result's `method` field always names the configured method. -/
theorem benchmarkMethod_method (env : BenchmarkEnv) (method : MethodConfig) :
    (benchmarkMethod env method).method = method.name := by
  rcases benchmarkMethod_shape env method with ⟨msg, h⟩ | ⟨fid, h⟩ |
    ⟨fid, ff, _, h⟩ | ⟨fid, ff, ps, _, h⟩ <;> rw [h] <;> rfl

/-- Evaluation of the flow after a successful enqueue (with an upload URL)
and upload: everything hinges on the poll loop's outcome. -/
theorem benchmarkFlow_eval (env : BenchmarkEnv) (method : MethodConfig)
    (f0 : RemoteFile) (url : String)
    (hu : env.upsert = .ok (f0, some url))
    (hup : env.uploadResult = .ok ()) :
    benchmarkFlow env method =
      match pollFile env.getFileAt f0 with
      | .error e => .error e
      | .ok (finalFile, attempts) =>
        if MAX_POLL_ATTEMPTS ≤ attempts then
          .ok (timeoutResult method f0.id env.elapsedMs)
        else if finalFile.status = .indexing_failed ∨ finalFile.status = .upload_failed then
          .ok (remoteFailResult method f0.id finalFile env.elapsedMs)
        else
          match env.passagesResult with
          | .error e => .error e
          | .ok passages => .ok (completedResult method f0.id finalFile passages env.elapsedMs) := by
  unfold benchmarkFlow
  rw [hu, hup]

/-- The run-to-completion path reports `timeout` exactly when the poll loop
returned with the attempt counter at the cap. -/
theorem benchmarkMethod_timeout_iff_cap (env : BenchmarkEnv) (method : MethodConfig)
    (f0 : RemoteFile) (url : String)
    (hu : env.upsert = .ok (f0, some url))
    (hup : env.uploadResult = .ok ()) :
    (benchmarkMethod env method).status = .timeout ↔
      ∃ f, pollFile env.getFileAt f0 = .ok (f, MAX_POLL_ATTEMPTS) := by
  have hflow := benchmarkFlow_eval env method f0 url hu hup
  cases hpoll : pollFile env.getFileAt f0 with
  | error e =>
    rw [hpoll] at hflow
    have hflow2 : benchmarkFlow env method = .error e := hflow
    rw [benchmarkMethod_of_flow_error env method e hflow2]
    constructor
    · intro h; exact absurd h (by simp [caughtResult])
    · rintro ⟨f, hf⟩; exact absurd hf (by simp)
  | ok pr2 =>
    obtain ⟨ff, n⟩ := pr2
    rw [hpoll] at hflow
    have hflow2 : benchmarkFlow env method =
        (if MAX_POLL_ATTEMPTS ≤ n then
          Except.ok (timeoutResult method f0.id env.elapsedMs)
        else if ff.status = .indexing_failed ∨ ff.status = .upload_failed then
          Except.ok (remoteFailResult method f0.id ff env.elapsedMs)
        else
          match env.passagesResult with
          | .error e => .error e
          | .ok passages =>
            Except.ok (completedResult method f0.id ff passages env.elapsedMs)) := hflow
    clear hflow
    by_cases h1 : MAX_POLL_ATTEMPTS ≤ n
    · rw [if_pos h1] at hflow2
      have hn : n ≤ MAX_POLL_ATTEMPTS := by
        have := pollAux_le env.getFileAt MAX_POLL_ATTEMPTS 0 f0 ff n hpoll
        omega
      have heq : n = MAX_POLL_ATTEMPTS := by omega
      subst heq
      rw [benchmarkMethod_of_flow_ok env method _ hflow2]
      exact ⟨fun _ => ⟨ff, rfl⟩, fun _ => rfl⟩
    · rw [if_neg h1] at hflow2
      constructor
      · intro h
        exfalso
        by_cases h2 : ff.status = .indexing_failed ∨ ff.status = .upload_failed
        · rw [if_pos h2] at hflow2
          rw [benchmarkMethod_of_flow_ok env method _ hflow2] at h
          exact toJob_ne_timeout ff.status h
        · rw [if_neg h2] at hflow2
          cases hps : env.passagesResult with
          | error e =>
            rw [hps] at hflow2
            have hflow3 : benchmarkFlow env method = .error e := hflow2
            rw [benchmarkMethod_of_flow_error env method e hflow3] at h
            exact absurd h (by simp [caughtResult])
          | ok ps =>
            rw [hps] at hflow2
            have hflow3 : benchmarkFlow env method =
                .ok (completedResult method f0.id ff ps env.elapsedMs) := hflow2
            rw [benchmarkMethod_of_flow_ok env method _ hflow3] at h
            exact absurd h (by simp [completedResult])
      · rintro ⟨f, hf⟩
        simp only [Except.ok.injEq, Prod.mk.injEq] at hf
        omega

/-- C1 (amended): with a successful enqueue and upload, `benchmarkMethod`
returns status `timeout` if and only if the remote status was still in the
pending set at every one of the 150 checks — i.e. the initial status and the
first 149 fetches are pending and the 150th fetch succeeds, *whatever*
status that final fetch reports.  (The original claim's clause that a run
whose final status fetch is terminal is never returned as `timeout` is
refuted by `benchmark_timeout_overrides_terminal_final_fetch`.) -/
theorem benchmarkMethod_timeout_iff (env : BenchmarkEnv) (method : MethodConfig)
    (f0 : RemoteFile) (url : String)
    (hu : env.upsert = .ok (f0, some url))
    (hup : env.uploadResult = .ok ()) :
    (benchmarkMethod env method).status = .timeout ↔
      (isPendingStatus f0.status = true ∧
       (∀ k, k + 1 < MAX_POLL_ATTEMPTS →
         ∃ fk, env.getFileAt k = .ok fk ∧ isPendingStatus fk.status = true) ∧
       (∃ fLast, env.getFileAt (MAX_POLL_ATTEMPTS - 1) = .ok fLast)) := by
  rw [benchmarkMethod_timeout_iff_cap env method f0 url hu hup]
  constructor
  · rintro ⟨f, hf⟩
    have hcap := pollAux_pending_of_cap env.getFileAt MAX_POLL_ATTEMPTS 0 f0 f
      (by norm_num [MAX_POLL_ATTEMPTS]) (by simpa [pollFile] using hf)
    obtain ⟨hp, hmid, hlast⟩ := hcap
    refine ⟨hp, fun k hk => hmid k (Nat.zero_le _) (by omega), ⟨f, by simpa using hlast⟩⟩
  · rintro ⟨hp, hmid, fLast, hlast⟩
    refine ⟨fLast, ?_⟩
    have := pollAux_cap_of_pending env.getFileAt MAX_POLL_ATTEMPTS 0 f0 fLast
      (by norm_num [MAX_POLL_ATTEMPTS]) hp
      (fun k _ hk2 => hmid k (by omega)) (by simpa using hlast)
    simpa [pollFile] using this

/-- Environment refuting the original C1: the remote status is pending at
each of the 150 checks, but the 150th (final) status fetch itself reports
`indexing_completed`. -/
def envC1 : BenchmarkEnv :=
  { upsert := .ok (⟨"file-1", .upload_pending, none, none⟩, some "https://upload.example"),
    uploadResult := .ok (),
    getFileAt := fun k =>
      .ok ⟨"file-1", if k < 149 then .indexing_pending else .indexing_completed, none, none⟩,
    passagesResult := .ok [],
    elapsedMs := 300000 }

/-- C1 counterexample: a run whose final (150th) status fetch reports the
terminal remote status `indexing_completed` is nevertheless returned as
`timeout` — the poll cap overrides the terminal remote status, contradicting
the claim that such a run is "returned with that remote status, never as
timeout". -/
theorem benchmark_timeout_overrides_terminal_final_fetch :
    (benchmarkMethod envC1 ⟨"basic", "Basic", .basicConfig⟩).status = .timeout ∧
    envC1.getFileAt 149 = .ok ⟨"file-1", .indexing_completed, none, none⟩ ∧
    isPendingStatus .indexing_completed = false := by
  refine ⟨?_, rfl, rfl⟩
  rw [benchmarkMethod_timeout_iff envC1 _ ⟨"file-1", .upload_pending, none, none⟩
    "https://upload.example" rfl rfl]
  refine ⟨rfl, ?_, ?_⟩
  · intro k hk
    refine ⟨⟨"file-1", .indexing_pending, none, none⟩, ?_, rfl⟩
    have hlt : k < 149 := by
      unfold MAX_POLL_ATTEMPTS at hk; omega
    simp [envC1, hlt]
  · exact ⟨⟨"file-1", .indexing_completed, none, none⟩, by norm_num [envC1, MAX_POLL_ATTEMPTS]⟩

/-- Environment where the remote stays pending forever. -/
def envC1W : BenchmarkEnv :=
  { upsert := .ok (⟨"file-2", .upload_pending, none, none⟩, some "u"),
    uploadResult := .ok (),
    getFileAt := fun _ => .ok ⟨"file-2", .indexing_pending, none, none⟩,
    passagesResult := .ok [],
    elapsedMs := 0 }

/-- Witness for `benchmarkMethod_timeout_iff` at a concrete environment. -/
theorem benchmarkMethod_timeout_iff_witness :
    (benchmarkMethod envC1W ⟨"vision", "Vision", .visionTranscribePages⟩).status = .timeout :=
  (benchmarkMethod_timeout_iff envC1W ⟨"vision", "Vision", .visionTranscribePages⟩
      ⟨"file-2", .upload_pending, none, none⟩ "u" rfl rfl).mpr
    ⟨rfl, fun _ _ => ⟨⟨"file-2", .indexing_pending, none, none⟩, rfl, rfl⟩,
     ⟨⟨"file-2", .indexing_pending, none, none⟩, rfl⟩⟩

/-! ## C2: metric population vs. status -/

/-- C2 (amended): in `benchmarkMethod`, any result whose status is not
`indexing_completed` carries zero/empty metric fields, and a completed
result carries exactly the metrics computed from the fetched passages
(which are all zero/empty when the remote returns no passages, so
"non-default" population is not guaranteed by completion — see
`completed_with_zero_passages`); in `getFileStatus`, the optional metric
fields are present if and only if the status is `indexing_completed`. -/
theorem metrics_populated_characterization (env : BenchmarkEnv) (method : MethodConfig)
    (senv : StatusEnv) (fid : String) :
    ((benchmarkMethod env method).status ≠ .indexing_completed →
      (benchmarkMethod env method).passageCount = 0 ∧
      (benchmarkMethod env method).contentCharsTotal = 0 ∧
      (benchmarkMethod env method).metaBreakdown = emptyBreakdown ∧
      (benchmarkMethod env method).sampleText = "") ∧
    ((benchmarkMethod env method).status = .indexing_completed →
      ∃ ps, env.passagesResult = .ok ps ∧
        (benchmarkMethod env method).passageCount = ps.length ∧
        (benchmarkMethod env method).contentCharsTotal = totalContentChars ps ∧
        (benchmarkMethod env method).metaBreakdown =
          ⟨computeByType ps, computeBySubtype ps, distinctPageCount ps⟩) ∧
    (((getFileStatus senv fid).passageCount.isSome ∧
      (getFileStatus senv fid).contentCharsTotal.isSome ∧
      (getFileStatus senv fid).metaBreakdown.isSome) ↔
      (getFileStatus senv fid).status = .indexing_completed) := by
  refine ⟨?_, ?_, ?_⟩
  · intro hne
    rcases benchmarkMethod_shape env method with ⟨msg, h⟩ | ⟨fid2, h⟩ |
      ⟨fid2, ff, _, h⟩ | ⟨fid2, ff, ps, _, h⟩ <;> rw [h]
    · exact ⟨rfl, rfl, rfl, rfl⟩
    · exact ⟨rfl, rfl, rfl, rfl⟩
    · exact ⟨rfl, rfl, rfl, rfl⟩
    · rw [h] at hne
      exact absurd rfl hne
  · intro hc
    rcases benchmarkMethod_shape env method with ⟨msg, h⟩ | ⟨fid2, h⟩ |
      ⟨fid2, ff, hff, h⟩ | ⟨fid2, ff, ps, hps, h⟩
    · rw [h] at hc; exact absurd hc (by simp [caughtResult])
    · rw [h] at hc; exact absurd hc (by simp [timeoutResult])
    · rw [h] at hc
      exfalso
      rcases hff with hff | hff <;> rw [show (remoteFailResult method fid2 ff env.elapsedMs).status = ff.status.toJob from rfl, hff] at hc <;>
        exact absurd hc (by simp [RemoteStatus.toJob])
    · exact ⟨ps, hps, by rw [h]; exact ⟨rfl, rfl, rfl⟩⟩
  · unfold getFileStatus
    by_cases hc : senv.file.status.toJob = .indexing_completed
    · rw [if_pos hc]
      simp only [Option.isSome_some]
      exact ⟨fun _ => hc, fun _ => ⟨trivial, trivial, trivial⟩⟩
    · rw [if_neg hc]
      simp only [Option.isSome_none]
      constructor
      · rintro ⟨h1, -⟩; exact absurd h1 (by simp)
      · intro h1; exact absurd h1 hc

/-- Environment in which the enqueue already reports the file as
`indexing_completed` and the passage listing returns the empty list. -/
def envC2 : BenchmarkEnv :=
  { upsert := .ok (⟨"file-3", .indexing_completed, none, none⟩, some "u"),
    uploadResult := .ok (),
    getFileAt := fun _ => .error "unused",
    passagesResult := .ok [],
    elapsedMs := 1000 }

/-- C2 counterexample: a run can finish with status `indexing_completed`
while `passageCount`, `contentCharsTotal` and `metaBreakdown` all hold
their default zero/empty values (the remote returned no passages), so
"status = indexing_completed iff the metric fields are populated with
non-default values" fails in the left-to-right direction. -/
theorem completed_with_zero_passages :
    (benchmarkMethod envC2 ⟨"basic", "Basic", .basicConfig⟩).status = .indexing_completed ∧
    (benchmarkMethod envC2 ⟨"basic", "Basic", .basicConfig⟩).passageCount = 0 ∧
    (benchmarkMethod envC2 ⟨"basic", "Basic", .basicConfig⟩).contentCharsTotal = 0 ∧
    (benchmarkMethod envC2 ⟨"basic", "Basic", .basicConfig⟩).metaBreakdown = emptyBreakdown := by
  exact ⟨rfl, rfl, rfl, rfl⟩

/-- Environment whose enqueue throws. -/
def envC2W : BenchmarkEnv :=
  { upsert := .error "network down",
    uploadResult := .ok (),
    getFileAt := fun _ => .error "unused",
    passagesResult := .ok [],
    elapsedMs := 5 }

/-- Witness for `metrics_populated_characterization` at concrete inputs. -/
theorem metrics_populated_characterization_witness :
    (benchmarkMethod envC2W ⟨"basic", "Basic", .basicConfig⟩).passageCount = 0 ∧
    (getFileStatus ⟨⟨"f", .indexing_completed, none, none⟩, [], none⟩ "f").status =
      .indexing_completed :=
  ⟨((metrics_populated_characterization envC2W ⟨"basic", "Basic", .basicConfig⟩
      ⟨⟨"f", .indexing_completed, none, none⟩, [], none⟩ "f").1 (by decide)).1,
   (metrics_populated_characterization envC2W ⟨"basic", "Basic", .basicConfig⟩
      ⟨⟨"f", .indexing_completed, none, none⟩, [], none⟩ "f").2.2.mp
     (by exact ⟨rfl, rfl, rfl⟩)⟩

/-! ## C9: thrown errors are caught at the Method Runner boundary -/

/-- C9: whenever a step of the run-to-completion path throws — the enqueue
call fails, the enqueue returns no upload URL, or the byte upload fails —
`benchmarkMethod` returns the catch record: status `indexing_failed` with
the error's message as `failedReason`; and `runBenchmark` still returns a
full `BenchmarkRunResult` whose `methods` array has one entry per
configured method, the failed method's entry being that catch record (the
error is never propagated). -/
theorem method_errors_caught_not_propagated (envOf : String → BenchmarkEnv)
    (runId startedAt completedAt fileName : String) (fileSize : Nat)
    (contentType : String) (m : MethodConfig) (s : String)
    (hm : m ∈ METHODS)
    (hfail :
      (envOf m.name).upsert = .error s ∨
      (∃ f, (envOf m.name).upsert = .ok (f, none) ∧
        s = "No uploadUrl returned from upsertFile") ∨
      (∃ f u, (envOf m.name).upsert = .ok (f, some u) ∧
        (envOf m.name).uploadResult = .error s)) :
    (runBenchmark envOf runId startedAt completedAt fileName fileSize contentType).methods.length =
      METHODS.length ∧
    (runBenchmark envOf runId startedAt completedAt fileName fileSize
        contentType).methods.find? (fun r => r.method = m.name) =
      some (caughtResult m s (envOf m.name).elapsedMs) ∧
    (caughtResult m s (envOf m.name).elapsedMs).status = .indexing_failed ∧
    (caughtResult m s (envOf m.name).elapsedMs).failedReason = some s := by
  have hflow : benchmarkFlow (envOf m.name) m = .error s := by
    rcases hfail with h | ⟨f, h, rfl⟩ | ⟨f, u, h, h2⟩
    · unfold benchmarkFlow; rw [h]
    · unfold benchmarkFlow; rw [h]
    · unfold benchmarkFlow; rw [h, h2]
  have hres : benchmarkMethod (envOf m.name) m = caughtResult m s (envOf m.name).elapsedMs :=
    benchmarkMethod_of_flow_error (envOf m.name) m s hflow
  refine ⟨by simp [runBenchmark], ?_, rfl, rfl⟩
  have hMETHODS : METHODS = [⟨"basic", "Basic", .basicConfig⟩,
      ⟨"vision", "Vision", .visionTranscribePages⟩,
      ⟨"landing-ai", "Landing AI", .parsingModeAgent⟩] := rfl
  rw [hMETHODS] at hm
  simp only [List.mem_cons, List.mem_singleton] at hm
  rcases hm with rfl | rfl | hm
  · simp only [runBenchmark, hMETHODS, List.map_cons, List.map_nil, List.find?]
    simp [benchmarkMethod_method, hres, caughtResult]
  · simp only [runBenchmark, hMETHODS, List.map_cons, List.map_nil, List.find?]
    simp [benchmarkMethod_method, hres, caughtResult]
  · rcases hm with rfl | hm
    · simp only [runBenchmark, hMETHODS, List.map_cons, List.map_nil, List.find?]
      simp [benchmarkMethod_method, hres, caughtResult]
    · simp at hm

/-- Environment whose enqueue throws (used by the C9 witness). -/
def envC9W : BenchmarkEnv :=
  { upsert := .error "boom",
    uploadResult := .ok (),
    getFileAt := fun _ => .error "unused",
    passagesResult := .ok [],
    elapsedMs := 7 }

/-- Witness for `method_errors_caught_not_propagated` at concrete inputs. -/
theorem method_errors_caught_witness :
    (runBenchmark (fun _ => envC9W) "run-1" "t0" "t1" "a.pdf" 10
        "application/pdf").methods.find? (fun r => r.method = "basic") =
      some (caughtResult ⟨"basic", "Basic", .basicConfig⟩ "boom" envC9W.elapsedMs) :=
  (method_errors_caught_not_propagated (fun _ => envC9W) "run-1" "t0" "t1" "a.pdf" 10
    "application/pdf" ⟨"basic", "Basic", .basicConfig⟩ "boom"
    (by simp [METHODS]) (.inl rfl)).2.1

/-! ## C6: excerpt budgeting -/

/-- The excerpt loop consumes a prefix of whole passages, never admitting a
passage whose content would push the accumulated excerpt past the budget. -/
theorem excerptLoop_spec :
    ∀ (cs : List String) (acc : String),
      ∃ n, n ≤ cs.length ∧
        excerptLoop cs acc = appendAll acc (cs.take n) ∧
        ∀ i, i < n →
          (appendAll acc (cs.take i)).length + (cs.getD i "").length ≤ EXCERPT_CHAR_LIMIT := by
  intro cs
  induction cs with
  | nil =>
    intro acc
    exact ⟨0, Nat.le_refl _, rfl, fun i hi => absurd hi (by omega)⟩
  | cons c rest ih =>
    intro acc
    by_cases hc : EXCERPT_CHAR_LIMIT < acc.length + c.length
    · refine ⟨0, Nat.zero_le _, ?_, fun i hi => absurd hi (by omega)⟩
      simp only [excerptLoop]
      rw [if_pos hc]
      rfl
    · obtain ⟨m, hm, heq, hb⟩ := ih (acc ++ c ++ "\n\n")
      refine ⟨m + 1, by simpa using Nat.succ_le_succ hm, ?_, ?_⟩
      · simp only [excerptLoop]
        rw [if_neg hc, heq]
        rfl
      · intro i hi
        cases i with
        | zero =>
          simp only [List.take_zero, List.getD_cons_zero]
          show acc.length + c.length ≤ EXCERPT_CHAR_LIMIT
          omega
        | succ i' =>
          have hi' : i' < m := by omega
          have := hb i' hi'
          simpa [appendAll] using this

/-- C6: `getExcerpt` reads at most 50 passages of the file, and its excerpt
is the separator-joined concatenation of a prefix of whole passages (then
trimmed, with a placeholder when empty); no passage is included whose
content, added to the excerpt accumulated so far, would exceed the
4000-character budget. -/
theorem excerpt_prefix_within_budget (filePassages : List Passage) :
    ∃ n, n ≤ 50 ∧
      n ≤ ((filePassages.take 50).map (fun p => p.content)).length ∧
      getExcerpt filePassages =
        (if (appendAll "" (((filePassages.take 50).map (fun p => p.content)).take n)).trim = ""
         then "[No content extracted]"
         else (appendAll "" (((filePassages.take 50).map (fun p => p.content)).take n)).trim) ∧
      ∀ i, i < n →
        (appendAll "" (((filePassages.take 50).map (fun p => p.content)).take i)).length +
          (((filePassages.take 50).map (fun p => p.content)).getD i "").length ≤
          EXCERPT_CHAR_LIMIT := by
  obtain ⟨n, hn, heq, hb⟩ := excerptLoop_spec ((filePassages.take 50).map (fun p => p.content)) ""
  refine ⟨n, ?_, hn, ?_, hb⟩
  · calc n ≤ ((filePassages.take 50).map (fun p => p.content)).length := hn
      _ = (filePassages.take 50).length := by simp
      _ ≤ 50 := by simp
  · unfold getExcerpt
    rw [heq]

/-! ## C7: parallel search isolation -/

/-- The entry produced for a method always carries that method's name. -/
theorem searchEntryFor_method (oracle : String → SearchOutcome) (m : String) :
    (searchEntryFor oracle m).method = m := by
  unfold searchEntryFor
  cases oracle m <;> rfl

/-- For a configured method, the aggregate response's entry is found by name
and is exactly the per-method mapping of that method's own outcome. -/
theorem searchHandler_find (oracle : String → SearchOutcome) (m : String)
    (hm : m ∈ searchMethods) :
    (searchHandler oracle).find? (fun e => e.method = m) = some (searchEntryFor oracle m) := by
  have hMS : searchMethods = ["basic", "vision", "landing-ai"] := rfl
  rw [hMS] at hm
  simp only [List.mem_cons, List.not_mem_nil, or_false] at hm
  rcases hm with rfl | rfl | rfl <;>
    simp [searchHandler, searchMethods, List.find?, searchEntryFor_method]

/-- C7 (amended): the aggregate search response always has exactly one
entry per configured method (three in total, in the fixed order); the entry
for a method is determined by that method's own outcome alone — a throwing
search yields an entry with an empty passage list and an `error` field set
to the thrown error's message (`'Search failed'` for a non-Error throw),
which is non-empty whenever the message is, while a succeeding search
yields its own passages with no error; changing another method's outcome
never changes this method's entry. -/
theorem search_isolation_characterization (oracle oracle2 : String → SearchOutcome)
    (m : String) (s : String) (ps : List SearchPassage) :
    (searchHandler oracle).length = 3 ∧
    (searchHandler oracle).map (fun e => e.method) = searchMethods ∧
    (m ∈ searchMethods → oracle m = .errError s →
      (searchHandler oracle).find? (fun e => e.method = m) = some ⟨m, [], some s⟩ ∧
      (s ≠ "" → ∃ err, (searchHandler oracle).find? (fun e => e.method = m) =
        some ⟨m, [], some err⟩ ∧ err ≠ "")) ∧
    (m ∈ searchMethods → oracle m = .ok ps →
      (searchHandler oracle).find? (fun e => e.method = m) = some ⟨m, ps, none⟩) ∧
    (m ∈ searchMethods → oracle m = oracle2 m →
      (searchHandler oracle).find? (fun e => e.method = m) =
        (searchHandler oracle2).find? (fun e => e.method = m)) := by
  refine ⟨rfl, ?_, ?_, ?_, ?_⟩
  · simp [searchHandler, searchMethods, Function.comp, searchEntryFor_method]
  · intro hm herr
    rw [searchHandler_find oracle m hm]
    unfold searchEntryFor
    rw [herr]
    exact ⟨rfl, fun hs => ⟨s, rfl, hs⟩⟩
  · intro hm hok
    rw [searchHandler_find oracle m hm]
    unfold searchEntryFor
    rw [hok]
  · intro hm hsame
    rw [searchHandler_find oracle m hm, searchHandler_find oracle2 m hm]
    unfold searchEntryFor
    rw [hsame]

/-- Oracle where the vision search throws an `Error` whose message is the
empty string and the other two methods succeed. -/
def oracleC7 : String → SearchOutcome := fun m =>
  if m = "vision" then .errError ""
  else .ok [⟨"hello world", 1, "file-a"⟩]

/-- C7 counterexample: when the thrown error's message is the empty string,
the failing method's entry carries `error = some ""` — an error field that
is *empty*, refuting the claim that the entry always carries a non-empty
error field (the other two entries are unaffected). -/
theorem search_error_field_can_be_empty :
    searchHandler oracleC7 =
      [⟨"basic", [⟨"hello world", 1, "file-a"⟩], none⟩,
       ⟨"vision", [], some ""⟩,
       ⟨"landing-ai", [⟨"hello world", 1, "file-a"⟩], none⟩] ∧
    ("" : String).length = 0 := by
  exact ⟨rfl, rfl⟩

/-- Oracle for the C7 witness: vision throws with a non-empty message. -/
def oracleC7W : String → SearchOutcome := fun m =>
  if m = "vision" then .errError "rate limited"
  else .ok [⟨"alpha", 2, "file-b"⟩]

/-- Witness for `search_isolation_characterization` at concrete inputs. -/
theorem search_isolation_witness :
    (searchHandler oracleC7W).find? (fun e => e.method = "vision") =
      some ⟨"vision", [], some "rate limited"⟩ ∧
    (searchHandler oracleC7W).find? (fun e => e.method = "basic") =
      some ⟨"basic", [⟨"alpha", 2, "file-b"⟩], none⟩ :=
  ⟨((search_isolation_characterization oracleC7W oracleC7W "vision" "rate limited"
      []).2.2.1 (by simp [searchMethods]) rfl).1,
   (search_isolation_characterization oracleC7W oracleC7W "basic" ""
      [⟨"alpha", 2, "file-b"⟩]).2.2.2.1 (by simp [searchMethods]) rfl⟩

/-! ## C10: totality of history reads on a degenerate store -/

/-- C10: for each degenerate state of the backing store — key absent, key
holding the empty string, or key holding a string on which `JSON.parse`
throws — `getHistory` returns the empty list, and the read-dependent
operations `getRunById` and `getHistorySummaries` return `none` and the
empty list respectively (none of them can fail). -/
theorem getHistory_total_on_degenerate_store
    (parseHistory : String → Option (List HistoryEntry)) (runId : String) :
    (getHistory none parseHistory = [] ∧
     getRunById none parseHistory runId = none ∧
     getHistorySummaries none parseHistory = []) ∧
    (getHistory (some "") parseHistory = [] ∧
     getRunById (some "") parseHistory runId = none ∧
     getHistorySummaries (some "") parseHistory = []) ∧
    (∀ s, parseHistory s = none →
      getHistory (some s) parseHistory = [] ∧
      getRunById (some s) parseHistory runId = none ∧
      getHistorySummaries (some s) parseHistory = []) := by
  refine ⟨⟨rfl, rfl, rfl⟩, ⟨rfl, rfl, rfl⟩, ?_⟩
  intro s hs
  by_cases hemp : s = ""
  · subst hemp; exact ⟨rfl, rfl, rfl⟩
  · have h : getHistory (some s) parseHistory = [] := by
      show (if s = "" then []
            else match parseHistory s with
              | none => []
              | some l => l) = []
      rw [if_neg hemp, hs]
    refine ⟨h, ?_, ?_⟩
    · unfold getRunById; rw [h]; rfl
    · unfold getHistorySummaries; rw [h]; rfl

/-- Witness for `getHistory_total_on_degenerate_store` at concrete inputs. -/
theorem getHistory_total_witness :
    getHistory (some "not json") (fun _ => none) = [] ∧
    getRunById (some "not json") (fun _ => none) "run-1" = none :=
  ⟨((getHistory_total_on_degenerate_store (fun _ => none) "run-1").2.2 "not json" rfl).1,
   ((getHistory_total_on_degenerate_store (fun _ => none) "run-1").2.2 "not json" rfl).2.1⟩

/-! ## History store lemmas -/

theorem findIndexAux_bounds {α : Type} (p : α → Bool) :
    ∀ (l : List α) (start i : Nat),
      findIndexAux p l start = some i → start ≤ i ∧ i - start < l.length := by
  intro l
  induction l with
  | nil => intro start i h; exact absurd h (by simp [findIndexAux])
  | cons x xs ih =>
    intro start i h
    simp only [findIndexAux] at h
    by_cases hp : p x
    · rw [if_pos hp] at h
      simp only [Option.some.injEq] at h
      subst h
      exact ⟨Nat.le_refl _, by simp⟩
    · rw [if_neg hp] at h
      obtain ⟨h1, h2⟩ := ih (start + 1) i h
      refine ⟨by omega, ?_⟩
      simp only [List.length_cons]
      omega

theorem findIndex_lt_length {α : Type} (p : α → Bool) (l : List α) (i : Nat)
    (h : findIndex p l = some i) : i < l.length := by
  have := findIndexAux_bounds p l 0 i h
  omega

theorem getD_set_self {α : Type} (l : List α) (i : Nat) (x d : α) (h : i < l.length) :
    (l.set i x).getD i d = x := by
  simp [List.getD_eq_getElem?_getD, List.getElem?_set_self (by simpa using h)]

theorem getD_set_ne {α : Type} (l : List α) (i j : Nat) (x d : α) (h : i ≠ j) :
    (l.set i x).getD j d = l.getD j d := by
  simp [List.getD_eq_getElem?_getD, List.getElem?_set_ne h]

/-- Unfolding of `updateMethodInHistory` when the run is found. -/
theorem updateMethodInHistory_found (now : String) (history : List HistoryEntry)
    (runId methodName : String) (u : MethodUpdate) (i : Nat)
    (hi : findIndex (fun h => h.runId = runId) history = some i) :
    updateMethodInHistory now history runId methodName u =
      history.set i (updateEntryMethod now methodName u (history.getD i dummyEntry)) := by
  unfold updateMethodInHistory
  rw [hi]

/-- Unfolding of `updateMethodInHistory` when the run is absent. -/
theorem updateMethodInHistory_not_found (now : String) (history : List HistoryEntry)
    (runId methodName : String) (u : MethodUpdate)
    (hi : findIndex (fun h => h.runId = runId) history = none) :
    updateMethodInHistory now history runId methodName u = history := by
  unfold updateMethodInHistory
  rw [hi]

/-- Unfolding of `updateEntryMethod` when the method is absent. -/
theorem updateEntryMethod_not_found (now methodName : String) (u : MethodUpdate)
    (e : HistoryEntry)
    (hj : findIndex (fun m => m.method = methodName) e.methods = none) :
    updateEntryMethod now methodName u e = e := by
  unfold updateEntryMethod
  rw [hj]

/-- The merged methods array when the method is found. -/
theorem updateEntryMethod_methods (now methodName : String) (u : MethodUpdate)
    (e : HistoryEntry) (j : Nat)
    (hj : findIndex (fun m => m.method = methodName) e.methods = some j) :
    (updateEntryMethod now methodName u e).methods =
      e.methods.set j (applyMethodUpdate u (e.methods.getD j dummyHistMethod)) := by
  unfold updateEntryMethod
  rw [hj]

/-- The merged `completedAt` when the method is found: set to `now` exactly
when every merged method is terminal and it was previously unset. -/
theorem updateEntryMethod_completedAt (now methodName : String) (u : MethodUpdate)
    (e : HistoryEntry) (j : Nat)
    (hj : findIndex (fun m => m.method = methodName) e.methods = some j) :
    (updateEntryMethod now methodName u e).completedAt =
      (if (e.methods.set j (applyMethodUpdate u (e.methods.getD j dummyHistMethod))).all
          (fun m => isTerminalStatus m.status) ∧ e.completedAt = ""
       then now else e.completedAt) := by
  unfold updateEntryMethod
  rw [hj]

/-! ## C3: terminal statuses and the merge -/

def cexMethodC3 : HistMethod :=
  { method := "basic", label := "Basic", fileId := "f", status := .indexing_completed,
    failedReason := none, processingTimeMs := some 5, passageCount := some 3,
    contentCharsTotal := some 10, metaBreakdown := some emptyBreakdown,
    sampleText := some "", startedAt := none }

def cexEntryC3 : HistoryEntry :=
  { runId := "r1", startedAt := "t0", completedAt := "t1",
    originalFile := ⟨"a.pdf", 10, "application/pdf"⟩,
    methods := [cexMethodC3], aiComparison := none }

def cexUpdateC3 : MethodUpdate :=
  { status := .indexing_failed, failedReason := some (some "late failure"),
    processingTimeMs := none, passageCount := none, contentCharsTotal := none,
    metaBreakdown := none }

/-- C3 counterexample: a method whose stored status is the terminal
`indexing_completed` is overwritten with the *different* terminal value
`indexing_failed` by a single `updateMethodInHistory` call — the store
itself never guards terminal statuses. -/
theorem terminal_status_overwritten :
    cexMethodC3.status = .indexing_completed ∧
    isTerminalStatus .indexing_completed = true ∧
    MethodJobStatus.indexing_failed ≠ MethodJobStatus.indexing_completed ∧
    (((updateMethodInHistory "t2" [cexEntryC3] "r1" "basic" cexUpdateC3).getD 0
        dummyEntry).methods.getD 0 dummyHistMethod).status = .indexing_failed := by
  exact ⟨rfl, rfl, by decide, rfl⟩

/-- C3 (amended): `updateMethodInHistory` is last-writer-wins on `status`:
whenever the run and the method are found, the stored status becomes the
update's status unconditionally, whatever (terminal or not) the previous
value was.  The no-overwrite discipline lives in the poller, which stops
scheduling polls for a method once a terminal payload has been merged — not
in the store. -/
theorem updateMethod_status_last_writer_wins (now : String) (history : List HistoryEntry)
    (runId methodName : String) (u : MethodUpdate) (i j : Nat)
    (hi : findIndex (fun h => h.runId = runId) history = some i)
    (hj : findIndex (fun m => m.method = methodName)
      ((history.getD i dummyEntry).methods) = some j) :
    (((updateMethodInHistory now history runId methodName u).getD i dummyEntry).methods.getD j
      dummyHistMethod).status = u.status := by
  rw [updateMethodInHistory_found now history runId methodName u i hi]
  rw [getD_set_self history i _ dummyEntry (findIndex_lt_length _ _ i hi)]
  rw [updateEntryMethod_methods now methodName u _ j hj]
  rw [getD_set_self _ j _ dummyHistMethod (findIndex_lt_length _ _ j hj)]
  rfl

/-- Witness for `updateMethod_status_last_writer_wins` at concrete inputs. -/
theorem updateMethod_status_witness :
    (((updateMethodInHistory "t2" [cexEntryC3] "r1" "basic" cexUpdateC3).getD 0
        dummyEntry).methods.getD 0 dummyHistMethod).status = cexUpdateC3.status :=
  updateMethod_status_last_writer_wins "t2" [cexEntryC3] "r1" "basic" cexUpdateC3 0 0 rfl rfl

/-! ## C8: completedAt is write-once -/

/-- C8: `updateMethodInHistory` (a) preserves the history length, (b) never
changes a non-empty `completedAt`, (c) leaves `completedAt` unchanged (in
particular unset) whenever some merged method is still non-terminal, and
(d) sets `completedAt` to the current time exactly the first time — when
the run and method are found, `completedAt` was unset, and after the merge
every method is terminal. -/
theorem completedAt_write_once (now : String) (history : List HistoryEntry)
    (runId methodName : String) (u : MethodUpdate) :
    (updateMethodInHistory now history runId methodName u).length = history.length ∧
    (∀ k, (history.getD k dummyEntry).completedAt ≠ "" →
      ((updateMethodInHistory now history runId methodName u).getD k dummyEntry).completedAt =
        (history.getD k dummyEntry).completedAt) ∧
    (∀ k, (((updateMethodInHistory now history runId methodName u).getD k
        dummyEntry).methods.all (fun m => isTerminalStatus m.status)) = false →
      ((updateMethodInHistory now history runId methodName u).getD k dummyEntry).completedAt =
        (history.getD k dummyEntry).completedAt) ∧
    (∀ i j, findIndex (fun h => h.runId = runId) history = some i →
      findIndex (fun m => m.method = methodName) ((history.getD i dummyEntry).methods) = some j →
      (history.getD i dummyEntry).completedAt = "" →
      (((updateMethodInHistory now history runId methodName u).getD i
        dummyEntry).methods.all (fun m => isTerminalStatus m.status)) = true →
      ((updateMethodInHistory now history runId methodName u).getD i dummyEntry).completedAt =
        now) := by
  cases hfi : findIndex (fun h => h.runId = runId) history with
  | none =>
    rw [updateMethodInHistory_not_found now history runId methodName u hfi]
    refine ⟨rfl, fun k _ => rfl, fun k _ => rfl, fun i j hi => ?_⟩
    exact absurd hi (by simp)
  | some i0 =>
    have hlen0 := findIndex_lt_length _ _ i0 hfi
    rw [updateMethodInHistory_found now history runId methodName u i0 hfi]
    refine ⟨by simp, ?_, ?_, ?_⟩
    · intro k hk
      by_cases hki : k = i0
      · subst hki
        rw [getD_set_self history k _ dummyEntry hlen0]
        cases hfj : findIndex (fun m => m.method = methodName)
            (history.getD k dummyEntry).methods with
        | none => rw [updateEntryMethod_not_found now methodName u _ hfj]
        | some j =>
          rw [updateEntryMethod_completedAt now methodName u _ j hfj]
          exact if_neg (fun hAnd => hk hAnd.2)
      · rw [getD_set_ne history i0 k _ dummyEntry (fun hEq => hki hEq.symm)]
    · intro k hall
      by_cases hki : k = i0
      · subst hki
        rw [getD_set_self history k _ dummyEntry hlen0] at hall ⊢
        cases hfj : findIndex (fun m => m.method = methodName)
            (history.getD k dummyEntry).methods with
        | none => rw [updateEntryMethod_not_found now methodName u _ hfj]
        | some j =>
          rw [updateEntryMethod_methods now methodName u _ j hfj] at hall
          rw [updateEntryMethod_completedAt now methodName u _ j hfj]
          refine if_neg (fun hAnd => ?_)
          rw [hall] at hAnd
          exact absurd hAnd.1 (by simp)
      · rw [getD_set_ne history i0 k _ dummyEntry (fun hEq => hki hEq.symm)]
    · intro i j hi hj hempty hall
      have hieq : i = i0 := by
        simpa using hi.symm
      subst hieq
      rw [getD_set_self history i _ dummyEntry hlen0] at hall ⊢
      rw [updateEntryMethod_methods now methodName u _ j hj] at hall
      rw [updateEntryMethod_completedAt now methodName u _ j hj]
      exact if_pos ⟨hall, hempty⟩

def pendMethodC8 : HistMethod :=
  { method := "m1", label := "M1", fileId := "f8", status := .indexing_pending,
    failedReason := none, processingTimeMs := some 0, passageCount := some 0,
    contentCharsTotal := some 0, metaBreakdown := some emptyBreakdown,
    sampleText := some "", startedAt := some "t0" }

def pendEntryC8 : HistoryEntry :=
  { runId := "r8", startedAt := "t0", completedAt := "",
    originalFile := ⟨"b.pdf", 20, "application/pdf"⟩,
    methods := [pendMethodC8], aiComparison := none }

def termUpdateC8 : MethodUpdate :=
  { status := .indexing_completed, failedReason := some none,
    processingTimeMs := some (some 1500), passageCount := some (some 4),
    contentCharsTotal := some (some 80), metaBreakdown := some (some emptyBreakdown) }

/-- Witness for `completedAt_write_once` at concrete inputs. -/
theorem completedAt_write_once_witness :
    ((updateMethodInHistory "now8" [pendEntryC8] "r8" "m1" termUpdateC8).getD 0
      dummyEntry).completedAt = "now8" :=
  (completedAt_write_once "now8" [pendEntryC8] "r8" "m1" termUpdateC8).2.2.2 0 0 rfl rfl rfl rfl

/-! ## C5: bounded insert with dedup-to-front -/

/-- The shared insert shape of `addToHistory`/`createPendingEntry` never
exceeds the cap. -/
theorem insertShape_length (H : List HistoryEntry) (e : HistoryEntry) :
    ((e :: H.filter (fun h => h.runId ≠ e.runId)).take MAX_HISTORY_ITEMS).length ≤
      MAX_HISTORY_ITEMS := by
  simp [List.length_take]

/-- Inserting a fresh `runId` into a full store keeps the new entry and
drops exactly the last (oldest) stored entry. -/
theorem insertShape_full_fresh (H : List HistoryEntry) (e : HistoryEntry)
    (hlen : H.length = MAX_HISTORY_ITEMS)
    (hfresh : e.runId ∉ H.map (fun h => h.runId)) :
    (e :: H.filter (fun h => h.runId ≠ e.runId)).take MAX_HISTORY_ITEMS =
      e :: H.dropLast := by
  have hfilter : H.filter (fun h => h.runId ≠ e.runId) = H := by
    rw [List.filter_eq_self]
    intro a ha
    have hne : a.runId ≠ e.runId :=
      fun hEq => hfresh (hEq ▸ List.mem_map_of_mem (fun h => h.runId) ha)
    simpa using hne
  rw [hfilter]
  have h25 : MAX_HISTORY_ITEMS = 24 + 1 := rfl
  rw [h25, List.take_succ_cons, List.dropLast_eq_take, hlen]
  rfl

/-- Inserting an already-present `runId` into a store within the cap does
not evict anything: the result is the new entry in front of the old store
minus every entry carrying that `runId`. -/
theorem insertShape_dup (H : List HistoryEntry) (e : HistoryEntry)
    (hdup : ∃ h ∈ H, h.runId = e.runId)
    (hlen : H.length ≤ MAX_HISTORY_ITEMS) :
    (e :: H.filter (fun h => h.runId ≠ e.runId)).take MAX_HISTORY_ITEMS =
      e :: H.filter (fun h => h.runId ≠ e.runId) := by
  apply List.take_of_length_le
  obtain ⟨h0, hmem, hid⟩ := hdup
  have hle : (H.filter (fun h => h.runId ≠ e.runId)).length ≤ H.length :=
    List.length_filter_le _ _
  have hlt : (H.filter (fun h => h.runId ≠ e.runId)).length < H.length := by
    rcases Nat.lt_or_ge ((H.filter (fun h => h.runId ≠ e.runId)).length) H.length with h | h
    · exact h
    · exfalso
      have heq : (H.filter (fun h => h.runId ≠ e.runId)).length = H.length :=
        Nat.le_antisymm hle h
      rw [List.filter_length_eq_length] at heq
      have := heq h0 hmem
      simp [hid] at this
  simp only [List.length_cons]
  omega

/-- The insert shape preserves distinctness of `runId`s and puts the new
entry at the front. -/
theorem insertShape_nodup_front (H : List HistoryEntry) (e : HistoryEntry)
    (hnd : (H.map (fun h => h.runId)).Nodup) :
    ((((e :: H.filter (fun h => h.runId ≠ e.runId)).take MAX_HISTORY_ITEMS)).map
       (fun h => h.runId)).Nodup ∧
    ((e :: H.filter (fun h => h.runId ≠ e.runId)).take MAX_HISTORY_ITEMS).getD 0 dummyEntry =
      e := by
  constructor
  · rw [List.map_take]
    apply (List.take_sublist _ _).nodup
    simp only [List.map_cons, List.nodup_cons]
    constructor
    · intro hmem
      obtain ⟨a, haf, haid⟩ := List.mem_map.mp hmem
      have := (List.mem_filter.mp haf).2
      simp [haid] at this
    · exact ((List.filter_sublist H).map (fun h => h.runId)).nodup hnd
  · rfl

/-- C5: after every insert (`addToHistory` or `createPendingEntry`) the
store holds at most 25 entries; inserting into a full store with a fresh
`runId` evicts exactly the oldest (last) entry; inserting a `runId` already
present replaces the old entry at the front, evicting nothing else; and
when the store's `runId`s were distinct they stay distinct — no duplicate
`runId` is ever produced — with the inserted entry at index 0. -/
theorem history_insert_bound_eviction (H : List HistoryEntry) (r : BenchmarkRunResult)
    (p : PendingHistoryEntry) :
    (addToHistory H r).length ≤ MAX_HISTORY_ITEMS ∧
    (createPendingEntry H p).length ≤ MAX_HISTORY_ITEMS ∧
    (H.length = MAX_HISTORY_ITEMS → (toHistoryEntry r).runId ∉ H.map (fun h => h.runId) →
      addToHistory H r = toHistoryEntry r :: H.dropLast) ∧
    (H.length = MAX_HISTORY_ITEMS → (pendingToEntry p).runId ∉ H.map (fun h => h.runId) →
      createPendingEntry H p = pendingToEntry p :: H.dropLast) ∧
    ((∃ h ∈ H, h.runId = (toHistoryEntry r).runId) → H.length ≤ MAX_HISTORY_ITEMS →
      addToHistory H r =
        toHistoryEntry r :: H.filter (fun h => h.runId ≠ (toHistoryEntry r).runId)) ∧
    ((H.map (fun h => h.runId)).Nodup →
      ((addToHistory H r).map (fun h => h.runId)).Nodup ∧
      (addToHistory H r).getD 0 dummyEntry = toHistoryEntry r) ∧
    ((H.map (fun h => h.runId)).Nodup →
      ((createPendingEntry H p).map (fun h => h.runId)).Nodup ∧
      (createPendingEntry H p).getD 0 dummyEntry = pendingToEntry p) := by
  refine ⟨insertShape_length H (toHistoryEntry r), insertShape_length H (pendingToEntry p),
    ?_, ?_, ?_, ?_, ?_⟩
  · exact fun hlen hfresh => insertShape_full_fresh H (toHistoryEntry r) hlen hfresh
  · exact fun hlen hfresh => insertShape_full_fresh H (pendingToEntry p) hlen hfresh
  · exact fun hdup hlen => insertShape_dup H (toHistoryEntry r) hdup hlen
  · exact fun hnd => insertShape_nodup_front H (toHistoryEntry r) hnd
  · exact fun hnd => insertShape_nodup_front H (pendingToEntry p) hnd

def runC5W : BenchmarkRunResult :=
  { runId := "run-w5", startedAt := "t0", completedAt := "t1",
    originalFile := ⟨"c.pdf", 30, "application/pdf"⟩, methods := [] }

def pendC5W : PendingHistoryEntry :=
  { runId := "run-w5p", startedAt := "t0",
    originalFile := ⟨"d.pdf", 40, "application/pdf"⟩, methods := [] }

/-- Witness for `history_insert_bound_eviction` at concrete inputs. -/
theorem history_insert_witness :
    ((addToHistory [] runC5W).map (fun h => h.runId)).Nodup ∧
    (addToHistory [] runC5W).getD 0 dummyEntry = toHistoryEntry runC5W :=
  (history_insert_bound_eviction [] runC5W pendC5W).2.2.2.2.2.1 (by simp)

/-! ## C4: export→import round trip -/

/-- C4: importing the export of the current store succeeds and leaves the
store exactly as it was (hypotheses: every stored entry passes the import
validation — its `runId` is truthy — and the store is within the 25-entry
cap; both hold for every store the application writes: generated `runId`s
are non-empty and every insert re-applies the cap).  In particular the
`runId` set after the import is a superset of the one before, and the cap
still holds. -/
theorem export_import_round_trip (H : List HistoryEntry)
    (hvalid : ∀ e ∈ H, validHistoryEntry e = true)
    (hlen : H.length ≤ MAX_HISTORY_ITEMS) :
    importHistory (some (exportHistory H)) H = (true, H) ∧
    (∀ rid, rid ∈ H.map (fun h => h.runId) →
      rid ∈ (importHistory (some (exportHistory H)) H).2.map (fun h => h.runId)) ∧
    (importHistory (some (exportHistory H)) H).2.length ≤ MAX_HISTORY_ITEMS := by
  have hmain : importHistory (some (exportHistory H)) H = (true, H) := by
    show (if H.all validHistoryEntry = true then
        (true, (H.filter (fun h => ¬ (H.map (fun h => h.runId)).contains h.runId) ++ H).take
          MAX_HISTORY_ITEMS)
      else (false, H)) = (true, H)
    rw [if_pos (List.all_eq_true.mpr hvalid)]
    have hnew : H.filter
        (fun h => ¬ (H.map (fun h => h.runId)).contains h.runId) = [] := by
      rw [List.filter_eq_nil_iff]
      intro a ha
      have hc : (H.map (fun h => h.runId)).contains a.runId = true := by
        have hmem : a.runId ∈ H.map (fun h => h.runId) :=
          List.mem_map_of_mem (fun h => h.runId) ha
        simpa [List.contains, List.elem_iff] using hmem
      simp [hc]
      exact ⟨a, ha, rfl⟩
    rw [hnew]
    simp [List.take_of_length_le hlen]
  refine ⟨hmain, ?_, ?_⟩
  · intro rid hr
    rw [hmain]
    exact hr
  · rw [hmain]
    exact hlen

def entryC4a : HistoryEntry :=
  { runId := "run-a", startedAt := "t0", completedAt := "t1",
    originalFile := ⟨"a.pdf", 1, "application/pdf"⟩, methods := [], aiComparison := none }

def entryC4b : HistoryEntry :=
  { runId := "run-b", startedAt := "t2", completedAt := "",
    originalFile := ⟨"b.pdf", 2, "application/pdf"⟩, methods := [cexMethodC3],
    aiComparison := none }

/-- Witness for `export_import_round_trip` at a concrete two-entry store. -/
theorem export_import_round_trip_witness :
    importHistory (some (exportHistory [entryC4a, entryC4b])) [entryC4a, entryC4b] =
      (true, [entryC4a, entryC4b]) :=
  (export_import_round_trip [entryC4a, entryC4b] (by decide) (by decide)).1

end ParserCompare
